import Mathlib

/- Verification development for the tiler program (src/main.go): a
command-line tool that builds an image pyramid from one source raster.
For every zoom level from the requested maximum down to 0 it resamples
the source image to side*tileSize pixels on each axis (side = 2^level),
cuts the resampled raster into a side-by-side grid of square tiles of
tileSize pixels, and writes each tile to a file named by substituting
the level and grid coordinates into a pattern. The definitions below
are a shallow embedding of that program; the theorems check the
specification's claims against it. -/

/-- Interpolation kernels of the resize library, as enumerated by the
interpFuncs map of main.go; the zero value of the Go type is
nearestNeighbor. -/
inductive Kernel where
  | nearestNeighbor
  | bilinear
  | bicubic
  | mitchellNetravali
  | lanczos2
  | lanczos3
  deriving DecidableEq

/-- Association list modelling the interpFuncs map of main.go lines
42-49, keyed by the flag spelling of each kernel. -/
def interpFuncs : List (String × Kernel) :=
  [("NearestNeighbor", Kernel.nearestNeighbor),
   ("Bilinear", Kernel.bilinear),
   ("Bicubic", Kernel.bicubic),
   ("MitchellNetravali", Kernel.mitchellNetravali),
   ("Lanczos2", Kernel.lanczos2),
   ("Lanczos3", Kernel.lanczos3)]

/-- Map lookup with comma-ok, modelling interpFuncs[flagInterpFunc] at
main.go line 58. -/
def lookupInterp (s : String) : Option Kernel :=
  (interpFuncs.find? (fun p => p.1 == s)).map (fun p => p.2)

/-- Supported encodings, main.go line 40. -/
def validEncodings : List String := ["png", "jpeg"]

/-- Decimal digit character with value d, for d below 10. -/
def digitChar (d : Nat) : Char :=
  match d with
  | 0 => '0'
  | 1 => '1'
  | 2 => '2'
  | 3 => '3'
  | 4 => '4'
  | 5 => '5'
  | 6 => '6'
  | 7 => '7'
  | 8 => '8'
  | _ => '9'

/-- Fuel-driven core of the decimal conversion: with fuel at least n
this computes the base-10 digits of n, most significant first. The fuel
argument only makes the recursion structural; it never runs out in
natToDigits below. -/
def natToDigitsAux : Nat → Nat → List Char
  | 0, n => [digitChar n]
  | fuel + 1, n =>
    if n < 10 then [digitChar n]
    else natToDigitsAux fuel (n / 10) ++ [digitChar (n % 10)]

/-- Decimal representation of a natural number, modelling strconv.Itoa
for the non-negative arguments fileName is called with. -/
def natToDigits (n : Nat) : List Char :=
  natToDigitsAux n n

/-- Numeric value of a digit character. -/
def digitVal (c : Char) : Nat := c.toNat - 48

/-- Value of a most-significant-first digit string. -/
def digitsVal (l : List Char) : Nat :=
  l.foldl (fun a c => 10 * a + digitVal c) 0

/-- Fuel-driven core of the replacement scan. With fuel at least the
length of the subject string this models strings.Replace(s, old, new,
-1) of the Go standard library for a non-empty old: scan left to
right, replace each non-overlapping occurrence of old by new, and
resume scanning after the inserted replacement. -/
def replaceAllAux (old new : List Char) : Nat → List Char → List Char
  | 0, s => s
  | _ + 1, [] => []
  | fuel + 1, c :: rest =>
    if old.isPrefixOf (c :: rest) ∧ old ≠ [] then
      new ++ replaceAllAux old new fuel (rest.drop (old.length - 1))
    else
      c :: replaceAllAux old new fuel rest

/-- Replacement of every occurrence of old by new, modelling
strings.Replace(s, old, new, -1) for the non-empty needles fileName
passes. -/
def replaceAll (old new s : List Char) : List Char :=
  replaceAllAux old new s.length s

/-- Whether old occurs as a contiguous substring of the subject,
scanning exactly as replaceAll does. -/
def hasSubstr (old : List Char) : List Char → Bool
  | [] => false
  | c :: rest => old.isPrefixOf (c :: rest) || hasSubstr old rest

/-- Placeholder literal for the zoom level. -/
def zoomTok : List Char := "\x7bzoom\x7d".toList

/-- Placeholder literal for the tile column. -/
def xTok : List Char := "\x7bx\x7d".toList

/-- Placeholder literal for the tile row. -/
def yTok : List Char := "\x7by\x7d".toList

/-- Default value of the -p flag, main.go line 35. -/
def defaultPattern : List Char := "\x7bzoom\x7d_\x7bx\x7d_\x7by\x7d.png".toList

/-- Output filename computation of main.go lines 193-198: substitute
the zoom placeholder, then the x placeholder, then the y placeholder,
each by the decimal value, leaving all other text verbatim. -/
def fileName (p : List Char) (zoom x y : Nat) : List Char :=
  replaceAll yTok (natToDigits y)
    (replaceAll xTok (natToDigits x)
      (replaceAll zoomTok (natToDigits zoom) p))

/-- Output path of one tile, modelling filepath.Join(flagOutDir,
fileName(...)) at main.go line 172 for the plain relative names the
program produces. -/
def tilePath (outDir p : List Char) (zoom x y : Nat) : List Char :=
  outDir ++ '/' :: fileName p zoom x y

/-- Tile coordinates (level, x, y) emitted by one SplitTiles call,
main.go lines 150-158: one row worker per y in [0, side) and, inside a
row, one Crop call per x in [0, side), where side = 1 << level. -/
def splitLevel (level : Nat) : List (Nat × Nat × Nat) :=
  (List.range (2 ^ level)).flatMap (fun y =>
    (List.range (2 ^ level)).map (fun x => (level, x, y)))

/-- Tile coordinates of the whole run for a maximum level n: main.go
lines 129-136 launch SplitTiles once per level, from n down to 0. -/
def runCoords (n : Nat) : List (Nat × Nat × Nat) :=
  ((List.range (n + 1)).reverse).flatMap splitLevel

/-- Level loop of main.go line 131 on the parsed signed level: for a
negative value the loop body never runs, otherwise the levels lv down
to 0 are processed. -/
def coordsOfLevel (lv : Int) : List (Nat × Nat × Nat) :=
  if lv < 0 then [] else runCoords lv.toNat

/-- In-memory raster with its dimensions; px i j is the pixel at
column i, row j. -/
structure Img (α : Type) where
  width : Nat
  height : Nat
  px : Nat → Nat → α

/-- Square tile buffer, modelling the freshly allocated
image.NewRGBA(tile) of Crop with tile = Rect(0, 0, tileSize,
tileSize). -/
structure TileBuf (α : Type) where
  size : Nat
  px : Nat → Nat → α

/-- Pixel transfer of draw.Draw with the Src operator from a source
point: destination pixel (i, j) is copied from the source pixel at
(spx + i, spy + j). -/
def drawSrc {α : Type} (src : Nat → Nat → α) (spx spy : Nat) : Nat → Nat → α :=
  fun i j => src (spx + i) (spy + j)

/-- Tile built by Crop, main.go lines 163-170: a new tileSize by
tileSize buffer whose pixels are copied from the resampled raster
starting at source point (x*tileSize, y*tileSize), the minimum corner
of the area rectangle. -/
def cropTile {α : Type} (img : Nat → Nat → α) (tileSize x y : Nat) : TileBuf α :=
  { size := tileSize, px := drawSrc img (x * tileSize) (y * tileSize) }

/-- Membership of a pixel in the source rectangle of tile (x, y):
image.Rect(x*tileSize, y*tileSize, tileSize + x*tileSize, tileSize +
y*tileSize) of main.go line 164. -/
def inArea (tileSize x y px py : Nat) : Prop :=
  x * tileSize ≤ px ∧ px < tileSize + x * tileSize ∧
    y * tileSize ≤ py ∧ py < tileSize + y * tileSize

instance (tileSize x y px py : Nat) : Decidable (inArea tileSize x y px py) := by
  unfold inArea
  infer_instance

/-- Encoder invocation selected by the switch of main.go lines
180-187. -/
inductive EncodeCall where
  | png
  | jpeg (quality : Int)
  | unsupported
  deriving DecidableEq

/-- Encoding switch of Crop: png ignores the quality flag entirely,
jpeg passes it through unchanged as jpeg.Options.Quality, any other
string yields the unsupported-encoding error. -/
def cropEncode (encoding : String) (quality : Int) : EncodeCall :=
  match encoding with
  | "png" => EncodeCall.png
  | "jpeg" => EncodeCall.jpeg quality
  | _ => EncodeCall.unsupported

/-- Resampled raster SplitTiles builds for one level, main.go lines
142-146: the original source image resized to side*tileSize on each
axis with the selected kernel, where side = 1 << level. resizeF
abstracts resize.Resize of the nfnt/resize library, whose contract is
to return a raster of exactly the requested dimensions. -/
def splitTilesRaster {α : Type} (resizeF : Nat → Nat → Img α → Kernel → Img α)
    (src : Img α) (tileSize level : Nat) (k : Kernel) : Img α :=
  resizeF (2 ^ level * tileSize) (2 ^ level * tileSize) src k

/-- Per-tile sweep outcome. Crop, main.go lines 172-190, either writes
the tile file or logs the create/encode error and returns; the sweep
continues either way. ok decides which tile writes succeed; the result
pairs the written and the logged coordinate lists in sweep order. -/
def runEffects (ok : Nat × Nat × Nat → Bool) :
    List (Nat × Nat × Nat) → List (Nat × Nat × Nat) × List (Nat × Nat × Nat)
  | [] => ([], [])
  | c :: rest =>
    let r := runEffects ok rest
    if ok c then (c :: r.1, r.2) else (r.1, c :: r.2)

/-- Command-line flags of main.go lines 22-38. -/
structure Config where
  tileSize : Int
  quality : Int
  encoding : String
  pattern : List Char
  interp : String
  outDir : List Char

/-- External facts main reads during one run: the positional argument
count, the ParseInt outcome on the level argument (none for a parse
error), the source file extension, the success of each I/O setup step,
and which individual tile writes succeed. -/
structure RunEnv where
  argc : Nat
  levelArg : Option Int
  srcExt : String
  mkdirOk : Bool
  openOk : Bool
  decodeOk : Bool
  tileOk : Nat × Nat × Nat → Bool

/-- Outcome of main, main.go lines 51-137: one constructor per early
exit, in program order, and completed for a run that reaches the level
loop and waits for every worker. completed records whether the unknown
kernel warning was printed, the kernel actually used, and the written
and logged tile coordinates. -/
inductive RunResult where
  | fatalTileSize
  | fatalEncoding
  | usageError
  | mkdirError
  | openError
  | fatalFormat
  | decodeError
  | fatalParseLevel
  | fatalLevelZero
  | completed (warnedInterp : Bool) (kernel : Kernel)
      (written : List (Nat × Nat × Nat)) (logged : List (Nat × Nat × Nat))
  deriving DecidableEq

/-- Control flow of main, main.go lines 51-137, in source order: the
tile size check, the interpolation lookup (which on a miss only prints
the valid names and keeps the zero value of the Go type), the encoding
check, the argument count check, directory creation, opening and
decoding the source, parsing the level, the level-zero check, and the
level loop. -/
def mainModel (cfg : Config) (env : RunEnv) : RunResult :=
  if cfg.tileSize ≤ 0 then RunResult.fatalTileSize
  else
    let warned := (lookupInterp cfg.interp).isNone
    let kern := (lookupInterp cfg.interp).getD Kernel.nearestNeighbor
    if ¬ validEncodings.contains cfg.encoding then RunResult.fatalEncoding
    else if env.argc ≠ 2 then RunResult.usageError
    else if ¬ env.mkdirOk then RunResult.mkdirError
    else if ¬ env.openOk then RunResult.openError
    else if env.srcExt ≠ ".png" ∧ env.srcExt ≠ ".bmp" then RunResult.fatalFormat
    else if ¬ env.decodeOk then RunResult.decodeError
    else
      match env.levelArg with
      | none => RunResult.fatalParseLevel
      | some lv =>
        if lv = 0 then RunResult.fatalLevelZero
        else
          let eff := runEffects env.tileOk (coordsOfLevel lv)
          RunResult.completed warned kern eff.1 eff.2

/-- Whether the run ended on one of the log.Fatal configuration
paths. -/
def isConfigFatal : RunResult → Bool
  | RunResult.fatalTileSize => true
  | RunResult.fatalEncoding => true
  | RunResult.fatalFormat => true
  | RunResult.fatalParseLevel => true
  | RunResult.fatalLevelZero => true
  | _ => false

/-- Coordinates of the tile files a run wrote. -/
def producedTiles : RunResult → List (Nat × Nat × Nat)
  | RunResult.completed _ _ w _ => w
  | _ => []

/-- Copy of a run environment with a different per-tile outcome
oracle and everything else unchanged. -/
def setTileOk (env : RunEnv) (ok : Nat × Nat × Nat → Bool) : RunEnv :=
  ⟨env.argc, env.levelArg, env.srcExt, env.mkdirOk, env.openOk, env.decodeOk, ok⟩

/-- Copy of a configuration with a different quality flag and
everything else unchanged. -/
def setQuality (cfg : Config) (q : Int) : Config :=
  ⟨cfg.tileSize, q, cfg.encoding, cfg.pattern, cfg.interp, cfg.outDir⟩

/-- Configuration holding every default flag value of main.go lines
31-38. -/
def cfgDefault : Config :=
  ⟨256, 5, "png", defaultPattern, "Bicubic", "tiles".toList⟩

/-- Configuration with the unknown kernel name Foo and every other
flag at its default. -/
def cfgFoo : Config :=
  ⟨256, 5, "png", defaultPattern, "Foo", "tiles".toList⟩

/-- Environment of a run whose external steps all succeed and whose
level argument parses to 1. -/
def envOkL1 : RunEnv :=
  ⟨2, some 1, ".png", true, true, true, fun _ => true⟩

/-- Environment of a run whose external steps all succeed and whose
level argument parses to -1. -/
def envNeg : RunEnv :=
  ⟨2, some (-1), ".png", true, true, true, fun _ => true⟩

/-- Environment of a run whose external steps all succeed and whose
level argument parses to 0. -/
def envZero : RunEnv :=
  ⟨2, some 0, ".png", true, true, true, fun _ => true⟩

theorem runEffects_eq (ok : Nat × Nat × Nat → Bool) (cs : List (Nat × Nat × Nat)) :
    runEffects ok cs = (cs.filter ok, cs.filter (fun c => ! ok c)) := by
  induction cs with
  | nil => rfl
  | cons c rest ih =>
    simp only [runEffects, ih, List.filter]
    cases h : ok c <;> simp [h]

theorem splitLevel_length (L : Nat) : (splitLevel L).length = 4 ^ L := by
  have h4 : (4 : Nat) ^ L = 2 ^ L * 2 ^ L := by
    rw [← mul_pow]
    norm_num
  simp [splitLevel, List.length_flatMap, Function.comp_def, List.map_const, h4, mul_comm]

theorem mem_splitLevel (L a b d : Nat) :
    (a, b, d) ∈ splitLevel L ↔ a = L ∧ b < 2 ^ L ∧ d < 2 ^ L := by
  simp only [splitLevel, List.mem_flatMap, List.mem_map, List.mem_range, Prod.mk.injEq]
  constructor
  · rintro ⟨y, hy, x, hx, rfl, rfl, rfl⟩
    exact ⟨rfl, hx, hy⟩
  · rintro ⟨rfl, hb, hd⟩
    exact ⟨d, hd, b, hb, rfl, rfl, rfl⟩

theorem nodup_splitLevel (L : Nat) : (splitLevel L).Nodup := by
  rw [splitLevel, List.nodup_flatMap]
  constructor
  · intro y _
    refine List.Nodup.map ?_ (List.nodup_range _)
    intro x1 x2 h
    simpa using h
  · refine List.Pairwise.imp ?_ (List.pairwise_lt_range _)
    intro y1 y2 hlt c hc1 hc2
    simp only [List.mem_map, List.mem_range] at hc1 hc2
    obtain ⟨x1, _, rfl⟩ := hc1
    obtain ⟨x2, _, h2⟩ := hc2
    have : y2 = y1 := by
      have := congrArg (fun t => t.2.2) h2
      simpa using this
    omega

theorem runCoords_zero : runCoords 0 = splitLevel 0 := by
  show (List.range 1).reverse.flatMap splitLevel = splitLevel 0
  rw [show List.range 1 = [0] from rfl]
  simp

theorem runCoords_succ (n : Nat) :
    runCoords (n + 1) = splitLevel (n + 1) ++ runCoords n := by
  simp [runCoords, List.range_succ]

theorem runCoords_length (n : Nat) :
    (runCoords n).length = ∑ L ∈ Finset.range (n + 1), 4 ^ L := by
  induction n with
  | zero => simp [runCoords_zero, splitLevel_length]
  | succ n ih =>
    rw [runCoords_succ, List.length_append, splitLevel_length, ih,
      Finset.sum_range_succ _ (n + 1)]
    exact Nat.add_comm _ _

theorem mem_runCoords (n a b d : Nat) :
    (a, b, d) ∈ runCoords n ↔ a ≤ n ∧ b < 2 ^ a ∧ d < 2 ^ a := by
  simp only [runCoords, List.mem_flatMap, List.mem_reverse, List.mem_range]
  constructor
  · rintro ⟨L, hL, hmem⟩
    obtain ⟨rfl, hb, hd⟩ := (mem_splitLevel L a b d).1 hmem
    exact ⟨by omega, hb, hd⟩
  · rintro ⟨ha, hb, hd⟩
    exact ⟨a, by omega, (mem_splitLevel a a b d).2 ⟨rfl, hb, hd⟩⟩

theorem nodup_runCoords (n : Nat) : (runCoords n).Nodup := by
  rw [runCoords, List.nodup_flatMap]
  constructor
  · intro L _
    exact nodup_splitLevel L
  · rw [List.pairwise_reverse]
    refine List.Pairwise.imp ?_ (List.pairwise_lt_range _)
    intro L1 L2 hlt c hc1 hc2
    obtain ⟨a, b, d⟩ := c
    have h1 := ((mem_splitLevel L2 a b d).1 hc1).1
    have h2 := ((mem_splitLevel L1 a b d).1 hc2).1
    omega

/-- C1: in a run with maxLevel N at least 1 and positive tile size in
which no per-tile write fails, the level loop performs exactly the sum
of 4^L for L from 0 to N tile writes, writing one tile for each
coordinate (level, x, y) with level at most N and x, y below 2^level,
and never writing any coordinate twice. -/
theorem run_produces_each_coordinate_once (N : Nat) (T : Int)
    (ok : Nat × Nat × Nat → Bool) (hN : 1 ≤ N) (hT : 0 < T)
    (hok : ∀ c, ok c = true) :
    (runEffects ok (runCoords N)).1.length = ∑ L ∈ Finset.range (N + 1), 4 ^ L ∧
    (∀ a b d, (a, b, d) ∈ (runEffects ok (runCoords N)).1 ↔
      a ≤ N ∧ b < 2 ^ a ∧ d < 2 ^ a) ∧
    (runEffects ok (runCoords N)).1.Nodup := by
  have hfil : (runEffects ok (runCoords N)).1 = runCoords N := by
    rw [runEffects_eq]
    exact List.filter_eq_self.2 (fun c _ => hok c)
  rw [hfil]
  exact ⟨runCoords_length N, fun a b d => mem_runCoords N a b d, nodup_runCoords N⟩

/-- Witness for C1: the theorem applied at maxLevel 1, tile size 1 and
the all-true per-tile oracle. -/
theorem run_produces_each_coordinate_once_witness :
    (runEffects (fun _ => true) (runCoords 1)).1.Nodup :=
  (run_produces_each_coordinate_once 1 1 (fun _ => true) (by decide) (by decide)
    (fun _ => rfl)).2.2

theorem isPrefixOf_cons_eq (a b : Char) (as bs : List Char) :
    (a :: as).isPrefixOf (b :: bs) = (a == b && as.isPrefixOf bs) := rfl

theorem replaceAllAux_congr (old new : List Char) :
    ∀ f1 f2 s, s.length ≤ f1 → s.length ≤ f2 →
      replaceAllAux old new f1 s = replaceAllAux old new f2 s := by
  intro f1
  induction f1 with
  | zero =>
    intro f2 s hs1 _
    have : s = [] := List.length_eq_zero.1 (by omega)
    subst this
    cases f2 <;> rfl
  | succ f ih =>
    intro f2 s hs1 hs2
    cases s with
    | nil => cases f2 <;> rfl
    | cons c rest =>
      cases f2 with
      | zero => simp at hs2
      | succ g =>
        show (if old.isPrefixOf (c :: rest) ∧ old ≠ [] then
            new ++ replaceAllAux old new f (rest.drop (old.length - 1))
          else c :: replaceAllAux old new f rest) =
          (if old.isPrefixOf (c :: rest) ∧ old ≠ [] then
            new ++ replaceAllAux old new g (rest.drop (old.length - 1))
          else c :: replaceAllAux old new g rest)
        have hr : rest.length ≤ f := by simp at hs1; omega
        have hr2 : rest.length ≤ g := by simp at hs2; omega
        have hd : (rest.drop (old.length - 1)).length ≤ f := by
          rw [List.length_drop]; omega
        have hd2 : (rest.drop (old.length - 1)).length ≤ g := by
          rw [List.length_drop]; omega
        by_cases hc : old.isPrefixOf (c :: rest) ∧ old ≠ []
        · rw [if_pos hc, if_pos hc, ih g _ hd hd2]
        · rw [if_neg hc, if_neg hc, ih g _ hr hr2]

theorem replaceAll_cons (old new : List Char) (c : Char) (rest : List Char) :
    replaceAll old new (c :: rest) =
      if old.isPrefixOf (c :: rest) ∧ old ≠ [] then
        new ++ replaceAll old new (rest.drop (old.length - 1))
      else c :: replaceAll old new rest := by
  show (if old.isPrefixOf (c :: rest) ∧ old ≠ [] then
      new ++ replaceAllAux old new rest.length (rest.drop (old.length - 1))
    else c :: replaceAllAux old new rest.length rest) = _
  by_cases hc : old.isPrefixOf (c :: rest) ∧ old ≠ []
  · rw [if_pos hc, if_pos hc]
    exact congrArg (new ++ ·)
      (replaceAllAux_congr old new rest.length _ _ (by rw [List.length_drop]; omega)
        (le_refl _))
  · rw [if_neg hc, if_neg hc]
    rfl

theorem replaceAll_of_not_hasSubstr (old new : List Char) :
    ∀ s, hasSubstr old s = false → replaceAll old new s = s := by
  intro s
  induction s with
  | nil => intro _; rfl
  | cons c rest ih =>
    intro h
    rw [hasSubstr, Bool.or_eq_false_iff] at h
    rw [replaceAll_cons, if_neg (by simp [h.1]), ih h.2]

theorem replaceAll_append_of_ne_head (hd : Char) (tl new : List Char) :
    ∀ a b, (∀ c ∈ a, c ≠ hd) →
      replaceAll (hd :: tl) new (a ++ b) = a ++ replaceAll (hd :: tl) new b := by
  intro a
  induction a with
  | nil => intro b _; rfl
  | cons c a2 ih =>
    intro b hne
    have hc : c ≠ hd := hne c (List.mem_cons_self c a2)
    rw [List.cons_append, replaceAll_cons, if_neg, ih b
      (fun d hdm => hne d (List.mem_cons_of_mem c hdm)), List.cons_append]
    rintro ⟨hpre, _⟩
    rw [isPrefixOf_cons_eq] at hpre
    simp only [Bool.and_eq_true, beq_iff_eq] at hpre
    exact hc hpre.1.symm

theorem digitChar_isDigit (d : Nat) : (digitChar d).isDigit = true := by
  unfold digitChar
  split <;> decide

theorem mem_natToDigitsAux_isDigit :
    ∀ fuel n c, c ∈ natToDigitsAux fuel n → c.isDigit = true := by
  intro fuel
  induction fuel with
  | zero =>
    intro n c hc
    simp only [natToDigitsAux, List.mem_singleton] at hc
    subst hc
    exact digitChar_isDigit n
  | succ f ih =>
    intro n c hc
    rw [natToDigitsAux] at hc
    by_cases h : n < 10
    · rw [if_pos h] at hc
      simp only [List.mem_singleton] at hc
      subst hc
      exact digitChar_isDigit n
    · rw [if_neg h] at hc
      rcases List.mem_append.1 hc with h1 | h2
      · exact ih _ _ h1
      · simp only [List.mem_singleton] at h2
        subst h2
        exact digitChar_isDigit _

theorem natToDigits_all_digits (n : Nat) (c : Char) (hc : c ∈ natToDigits n) :
    c.isDigit = true :=
  mem_natToDigitsAux_isDigit n n c hc

theorem not_mem_natToDigits (s : Char) (hs : s.isDigit = false) (n : Nat) :
    s ∉ natToDigits n := by
  intro h
  rw [natToDigits_all_digits n s h] at hs
  cases hs

theorem natToDigits_ne_char (s : Char) (hs : s.isDigit = false) (n : Nat) :
    ∀ c ∈ natToDigits n, c ≠ s := by
  intro c hc he
  subst he
  rw [natToDigits_all_digits n c hc] at hs
  cases hs

theorem digitVal_digitChar (d : Nat) (h : d < 10) : digitVal (digitChar d) = d := by
  interval_cases d <;> rfl

theorem digitsVal_append_digit (l : List Char) (c : Char) :
    digitsVal (l ++ [c]) = 10 * digitsVal l + digitVal c := by
  rw [digitsVal, List.foldl_append]
  rfl

theorem digitsVal_natToDigitsAux :
    ∀ fuel n, n ≤ fuel → digitsVal (natToDigitsAux fuel n) = n := by
  intro fuel
  induction fuel with
  | zero =>
    intro n hn
    have : n = 0 := by omega
    subst this
    rfl
  | succ f ih =>
    intro n hn
    rw [natToDigitsAux]
    by_cases h : n < 10
    · rw [if_pos h]
      show 10 * 0 + digitVal (digitChar n) = n
      rw [digitVal_digitChar n h]
      omega
    · rw [if_neg h, digitsVal_append_digit, ih (n / 10) (by omega),
        digitVal_digitChar _ (Nat.mod_lt n (by decide))]
      omega

theorem digitsVal_natToDigits (n : Nat) : digitsVal (natToDigits n) = n :=
  digitsVal_natToDigitsAux n n (le_refl n)

theorem natToDigits_injective (a b : Nat) (h : natToDigits a = natToDigits b) :
    a = b := by
  have := congrArg digitsVal h
  rwa [digitsVal_natToDigits, digitsVal_natToDigits] at this

theorem append_sep_cancel (sep : Char) :
    ∀ (a1 b1 a2 b2 : List Char), sep ∉ a1 → sep ∉ a2 →
      a1 ++ sep :: b1 = a2 ++ sep :: b2 → a1 = a2 ∧ b1 = b2 := by
  intro a1
  induction a1 with
  | nil =>
    intro b1 a2 b2 _ h2 heq
    cases a2 with
    | nil => simpa using heq
    | cons c a3 =>
      exfalso
      simp only [List.nil_append, List.cons_append, List.cons.injEq] at heq
      exact h2 (heq.1 ▸ List.mem_cons_self c a3)
  | cons c a1t ih =>
    intro b1 a2 b2 h1 h2 heq
    cases a2 with
    | nil =>
      exfalso
      simp only [List.cons_append, List.nil_append, List.cons.injEq] at heq
      exact h1 (heq.1.symm ▸ List.mem_cons_self c a1t)
    | cons d a2t =>
      simp only [List.cons_append, List.cons.injEq] at heq
      obtain ⟨rfl, htl⟩ := heq
      obtain ⟨ha, hb⟩ := ih b1 a2t b2 (fun hm => h1 (List.mem_cons_of_mem c hm))
        (fun hm => h2 (List.mem_cons_of_mem c hm)) htl
      exact ⟨by rw [ha], hb⟩

theorem replaceAll_zoom_default (dz : List Char) :
    replaceAll zoomTok dz defaultPattern = dz ++ "_\x7bx\x7d_\x7by\x7d.png".toList := by
  rw [show defaultPattern = '\x7b' :: "zoom\x7d_\x7bx\x7d_\x7by\x7d.png".toList from rfl,
    replaceAll_cons, if_pos ⟨by decide, by decide⟩,
    show ("zoom\x7d_\x7bx\x7d_\x7by\x7d.png".toList).drop (zoomTok.length - 1) =
      "_\x7bx\x7d_\x7by\x7d.png".toList from rfl,
    replaceAll_of_not_hasSubstr _ _ _ (by decide)]

theorem replaceAll_x_tail (dx : List Char) :
    replaceAll xTok dx "_\x7bx\x7d_\x7by\x7d.png".toList =
      '_' :: (dx ++ "_\x7by\x7d.png".toList) := by
  rw [show "_\x7bx\x7d_\x7by\x7d.png".toList =
      '_' :: "\x7bx\x7d_\x7by\x7d.png".toList from rfl,
    replaceAll_cons, if_neg (by decide),
    show "\x7bx\x7d_\x7by\x7d.png".toList = '\x7b' :: "x\x7d_\x7by\x7d.png".toList from rfl,
    replaceAll_cons, if_pos ⟨by decide, by decide⟩,
    show ("x\x7d_\x7by\x7d.png".toList).drop (xTok.length - 1) =
      "_\x7by\x7d.png".toList from rfl,
    replaceAll_of_not_hasSubstr _ _ _ (by decide)]

theorem replaceAll_y_tail (dy : List Char) :
    replaceAll yTok dy "_\x7by\x7d.png".toList = '_' :: (dy ++ ".png".toList) := by
  rw [show "_\x7by\x7d.png".toList = '_' :: "\x7by\x7d.png".toList from rfl,
    replaceAll_cons, if_neg (by decide),
    show "\x7by\x7d.png".toList = '\x7b' :: "y\x7d.png".toList from rfl,
    replaceAll_cons, if_pos ⟨by decide, by decide⟩,
    show ("y\x7d.png".toList).drop (yTok.length - 1) = ".png".toList from rfl,
    replaceAll_of_not_hasSubstr _ _ _ (by decide)]

theorem fileName_default (z x y : Nat) :
    fileName defaultPattern z x y =
      natToDigits z ++ '_' :: (natToDigits x ++ '_' :: (natToDigits y ++ ".png".toList)) := by
  rw [fileName, replaceAll_zoom_default,
    show xTok = '\x7b' :: "x\x7d".toList from rfl,
    replaceAll_append_of_ne_head '\x7b' "x\x7d".toList (natToDigits x) (natToDigits z) _
      (natToDigits_ne_char '\x7b' (by decide) z),
    show ('\x7b' :: "x\x7d".toList) = xTok from rfl,
    replaceAll_x_tail,
    show yTok = '\x7b' :: "y\x7d".toList from rfl,
    replaceAll_append_of_ne_head '\x7b' "y\x7d".toList (natToDigits y) (natToDigits z) _
      (natToDigits_ne_char '\x7b' (by decide) z),
    replaceAll_cons, if_neg (by
      rintro ⟨hpre, -⟩
      rw [isPrefixOf_cons_eq] at hpre
      simp at hpre),
    replaceAll_append_of_ne_head '\x7b' "y\x7d".toList (natToDigits y) (natToDigits x) _
      (natToDigits_ne_char '\x7b' (by decide) x),
    show ('\x7b' :: "y\x7d".toList) = yTok from rfl,
    replaceAll_y_tail]

/-- C7: fileName performs literal placeholder substitution: the default
pattern with (level, x, y) = (2, 3, 1) yields 2_3_1.png, a pattern in
which a placeholder occurs twice substitutes every occurrence, and a
pattern containing none of the three placeholders is returned verbatim
for every coordinate, so it names the same constant file for every
tile. -/
theorem fileName_literal_substitution :
    fileName defaultPattern 2 3 1 = "2_3_1.png".toList ∧
    fileName "\x7bx\x7d\x7bx\x7d".toList 0 7 0 = "77".toList ∧
    (∀ p z x y, hasSubstr zoomTok p = false → hasSubstr xTok p = false →
      hasSubstr yTok p = false → fileName p z x y = p) := by
  refine ⟨by decide, by decide, fun p z x y h1 h2 h3 => ?_⟩
  rw [fileName, replaceAll_of_not_hasSubstr _ _ _ h1,
    replaceAll_of_not_hasSubstr _ _ _ h2, replaceAll_of_not_hasSubstr _ _ _ h3]

/-- Witness for C7: the placeholder-free part of the theorem applied to
the pattern tile.png at coordinate (4, 5, 6). -/
theorem fileName_literal_substitution_witness :
    fileName "tile.png".toList 4 5 6 = "tile.png".toList :=
  fileName_literal_substitution.2.2 "tile.png".toList 4 5 6 (by decide) (by decide)
    (by decide)

/-- C9 counterexample: for the placeholder-free pattern a.png, the two
distinct tile coordinates (0, 0, 0) and (1, 0, 0) are written to the
same output path, falsifying the claim as stated over every name
pattern. -/
theorem constant_pattern_paths_collide :
    ((0, 0, 0) : Nat × Nat × Nat) ≠ (1, 0, 0) ∧
    tilePath "tiles".toList "a.png".toList 0 0 0 =
      tilePath "tiles".toList "a.png".toList 1 0 0 := by
  exact ⟨by decide, by decide⟩

/-- C9 amended: for the default name pattern, distinct tile
coordinates always map to distinct output paths, so no two concurrent
writers target the same file. -/
theorem default_pattern_paths_injective (od : List Char) (z x y z2 x2 y2 : Nat)
    (h : tilePath od defaultPattern z x y = tilePath od defaultPattern z2 x2 y2) :
    z = z2 ∧ x = x2 ∧ y = y2 := by
  rw [tilePath, tilePath] at h
  have h0 := List.append_cancel_left h
  injection h0 with hslash h1
  rw [fileName_default, fileName_default] at h1
  obtain ⟨hzeq, h2⟩ := append_sep_cancel '_' _ _ _ _
    (not_mem_natToDigits '_' (by decide) z) (not_mem_natToDigits '_' (by decide) z2) h1
  obtain ⟨hxeq, h3⟩ := append_sep_cancel '_' _ _ _ _
    (not_mem_natToDigits '_' (by decide) x) (not_mem_natToDigits '_' (by decide) x2) h2
  have h4 : natToDigits y ++ '.' :: "png".toList =
      natToDigits y2 ++ '.' :: "png".toList := h3
  obtain ⟨hyeq, -⟩ := append_sep_cancel '.' _ _ _ _
    (not_mem_natToDigits '.' (by decide) y) (not_mem_natToDigits '.' (by decide) y2) h4
  exact ⟨natToDigits_injective _ _ hzeq, natToDigits_injective _ _ hxeq,
    natToDigits_injective _ _ hyeq⟩

/-- Witness for the amended C9 theorem at coordinate (1, 2, 3) against
itself. -/
theorem default_pattern_paths_injective_witness : 1 = 1 ∧ 2 = 2 ∧ 3 = 3 :=
  default_pattern_paths_injective "tiles".toList 1 2 3 1 2 3 rfl

/-- C2: code evaluation at the failing input. A parsed level of -1
passes the only level check of main (which tests equality with 0
only), the level loop body never runs, and main completes normally
with no fatal diagnostic and no tiles; a parsed level of 0 is the one
value below 1 that is rejected. The claim that every value below 1 is
reported as a fatal error therefore fails on the code. -/
theorem negative_level_completes_silently :
    mainModel cfgDefault envNeg = RunResult.completed false Kernel.bicubic [] [] ∧
    isConfigFatal (mainModel cfgDefault envNeg) = false ∧
    mainModel cfgDefault envZero = RunResult.fatalLevelZero := by
  exact ⟨by decide, by decide, by decide⟩

/-- C3 counterexample: with the unknown kernel name Foo and every
other input valid at maxLevel 1, the run is not terminated at
configuration time: no fatal configuration path is taken and five tile
files are produced, falsifying the claim that the process exits
without producing output. -/
theorem unknown_kernel_not_fatal :
    isConfigFatal (mainModel cfgFoo envOkL1) = false ∧
    producedTiles (mainModel cfgFoo envOkL1) =
      [(1, 0, 0), (1, 1, 0), (1, 0, 1), (1, 1, 1), (0, 0, 0)] := by
  exact ⟨by decide, by decide⟩

/-- C3 amended: an unknown -interp value makes main print the valid
kernel names to stderr but does not terminate the run; when every
other check passes, the run proceeds and completes the whole pyramid
using the zero value of the kernel type, NearestNeighbor. -/
theorem unknown_kernel_warns_and_continues
    (cfg : Config) (env : RunEnv) (lv : Int)
    (hi : lookupInterp cfg.interp = none)
    (hts : ¬ cfg.tileSize ≤ 0)
    (he : cfg.encoding ∈ validEncodings)
    (ha : env.argc = 2)
    (hm : env.mkdirOk = true) (ho : env.openOk = true)
    (hx : env.srcExt = ".png" ∨ env.srcExt = ".bmp")
    (hd : env.decodeOk = true)
    (hl : env.levelArg = some lv) (hlv : lv ≠ 0) :
    mainModel cfg env = RunResult.completed true Kernel.nearestNeighbor
      (runEffects env.tileOk (coordsOfLevel lv)).1
      (runEffects env.tileOk (coordsOfLevel lv)).2 := by
  rcases hx with hx | hx <;>
    simp [mainModel, hi, hts, he, ha, hm, ho, hx, hd, hl, hlv]

/-- Witness for the amended C3 theorem at the Foo configuration with
every default flag and maxLevel 1. -/
theorem unknown_kernel_warns_and_continues_witness :
    mainModel cfgFoo envOkL1 = RunResult.completed true Kernel.nearestNeighbor
      (runEffects envOkL1.tileOk (coordsOfLevel 1)).1
      (runEffects envOkL1.tileOk (coordsOfLevel 1)).2 :=
  unknown_kernel_warns_and_continues cfgFoo envOkL1 1 (by decide) (by decide)
    (by decide) rfl rfl rfl (Or.inl rfl) rfl rfl (by decide)

/-- C4: the tile Crop builds at grid cell (x, y) is a buffer of side
length exactly tileSize and, for every pair of indices below tileSize,
its pixel (i, j) is the pixel (x*tileSize + i, y*tileSize + j) of the
resampled raster: a direct copy with no further resampling. -/
theorem crop_tile_exact_copy {α : Type} (img : Nat → Nat → α) (T x y : Nat) :
    (cropTile img T x y).size = T ∧
    ∀ i j, i < T → j < T →
      (cropTile img T x y).px i j = img (x * T + i) (y * T + j) :=
  ⟨rfl, fun _ _ _ _ => rfl⟩

/-- Witness for C4 at a concrete raster, tile size 4, grid cell
(1, 2), tile pixel (3, 0). -/
theorem crop_tile_exact_copy_witness :
    (cropTile (fun a b => (a, b)) 4 1 2).px 3 0 = (7, 8) := by
  have h := (crop_tile_exact_copy (fun a b => (a, b)) 4 1 2).2 3 0 (by decide) (by decide)
  simpa using h

/-- C6: the raster SplitTiles cuts at level L is produced by a single
resize of the one original source image to exactly 2^L * tileSize
pixels on each axis with the selected kernel, never from another
level's output; under the resize contract (a raster of exactly the
requested dimensions) its dimensions are exactly 2^L * tileSize. -/
theorem level_raster_resamples_original {α : Type}
    (resizeF : Nat → Nat → Img α → Kernel → Img α) (src : Img α)
    (T : Nat) (k : Kernel)
    (hres : ∀ w h s kk, (resizeF w h s kk).width = w ∧ (resizeF w h s kk).height = h) :
    ∀ L, splitTilesRaster resizeF src T L k = resizeF (2 ^ L * T) (2 ^ L * T) src k ∧
      (splitTilesRaster resizeF src T L k).width = 2 ^ L * T ∧
      (splitTilesRaster resizeF src T L k).height = 2 ^ L * T :=
  fun _ => ⟨rfl, (hres _ _ _ _).1, (hres _ _ _ _).2⟩

/-- Witness for C6 with a dimension-respecting resize function, tile
size 1 and level 2. -/
theorem level_raster_resamples_original_witness :
    (splitTilesRaster (fun w h s _ => Img.mk w h s.px)
      (Img.mk 3 3 (fun _ _ => (0 : Nat))) 1 2 Kernel.bicubic).width = 4 := by
  have h := (level_raster_resamples_original (fun w h s _ => Img.mk w h s.px)
    (Img.mk 3 3 (fun _ _ => (0 : Nat))) 1 Kernel.bicubic
    (fun _ _ _ _ => ⟨rfl, rfl⟩) 2).2.1
  simpa using h

/-- C10: the quality flag is never validated: main's outcome is
identical whatever integer the quality flag holds, and at encode time
the jpeg branch passes the value through unchanged as the encoder
quality option while the png branch produces the same encoder call
whatever the value is. -/
theorem quality_never_validated (cfg : Config) (env : RunEnv) (q : Int) :
    mainModel (setQuality cfg q) env = mainModel cfg env ∧
    cropEncode "jpeg" q = EncodeCall.jpeg q ∧
    cropEncode "png" q = EncodeCall.png :=
  ⟨rfl, rfl, rfl⟩

/-- C5: with a positive tile size, every pixel of a level's raster
(side*tileSize on each axis, side = 2^L) lies in the crop rectangle of
exactly one tile of that level's grid sweep: laid out at their origins
the tiles reconstruct the raster with no gaps and no overlaps. -/
theorem tiles_partition_raster (T L a b : Nat)
    (hT : 0 < T) (ha : a < 2 ^ L * T) (hb : b < 2 ^ L * T) :
    ∃! c : Nat × Nat, (L, c.1, c.2) ∈ splitLevel L ∧ inArea T c.1 c.2 a b := by
  have hdivx : a / T < 2 ^ L := (Nat.div_lt_iff_lt_mul hT).2 ha
  have hdivy : b / T < 2 ^ L := (Nat.div_lt_iff_lt_mul hT).2 hb
  refine ⟨(a / T, b / T), ⟨?_, ?_⟩, ?_⟩
  · exact (mem_splitLevel L L (a / T) (b / T)).2 ⟨rfl, hdivx, hdivy⟩
  · refine ⟨Nat.div_mul_le_self a T, ?_, Nat.div_mul_le_self b T, ?_⟩
    · calc a = T * (a / T) + a % T := (Nat.div_add_mod a T).symm
        _ < T * (a / T) + T := Nat.add_lt_add_left (Nat.mod_lt a hT) _
        _ = T + a / T * T := by rw [Nat.mul_comm T (a / T), Nat.add_comm]
    · calc b = T * (b / T) + b % T := (Nat.div_add_mod b T).symm
        _ < T * (b / T) + T := Nat.add_lt_add_left (Nat.mod_lt b hT) _
        _ = T + b / T * T := by rw [Nat.mul_comm T (b / T), Nat.add_comm]
  · rintro ⟨u, v⟩ ⟨hmem, h1, h2, h3, h4⟩
    have hu2 : u = a / T := by
      have hle : u ≤ a / T := (Nat.le_div_iff_mul_le hT).2 h1
      have hlt : a < (u + 1) * T := by
        rw [add_one_mul, Nat.add_comm (u * T) T]
        exact h2
      exact Nat.le_antisymm hle (Nat.lt_succ_iff.1 ((Nat.div_lt_iff_lt_mul hT).2 hlt))
    have hv2 : v = b / T := by
      have hle : v ≤ b / T := (Nat.le_div_iff_mul_le hT).2 h3
      have hlt : b < (v + 1) * T := by
        rw [add_one_mul, Nat.add_comm (v * T) T]
        exact h4
      exact Nat.le_antisymm hle (Nat.lt_succ_iff.1 ((Nat.div_lt_iff_lt_mul hT).2 hlt))
    subst hu2
    subst hv2
    rfl

/-- Witness for C5 at tile size 2, level 1, pixel (3, 0). -/
theorem tiles_partition_raster_witness :
    ∃! c : Nat × Nat, (1, c.1, c.2) ∈ splitLevel 1 ∧ inArea 2 c.1 c.2 3 0 :=
  tiles_partition_raster 2 1 3 0 (by decide) (by decide) (by decide)

theorem filter_length_partition {α : Type} (p : α → Bool) (l : List α) :
    (l.filter p).length + (l.filter (fun c => ! p c)).length = l.length := by
  induction l with
  | nil => rfl
  | cons c rest ih =>
    cases h : p c <;> simp [List.filter_cons, h] <;> omega

/-- C8: per-tile failures are local and invisible to the driver: if
the run in which every tile write succeeds completes with written list
wr, then the run differing only in the per-tile oracle still reaches
normal completion with the same warning flag and kernel, writing
exactly the tiles the oracle lets succeed and logging exactly the
rest, and the written and logged counts always partition the full
grid; the outcome stays the completed constructor for every oracle, so
no per-tile error ever propagates upward. -/
theorem per_tile_failures_are_local
    (cfg : Config) (env : RunEnv) (w : Bool) (k : Kernel)
    (wr lg : List (Nat × Nat × Nat)) (ok : Nat × Nat × Nat → Bool)
    (h : mainModel cfg (setTileOk env (fun _ => true)) =
      RunResult.completed w k wr lg) :
    mainModel cfg (setTileOk env ok) = RunResult.completed w k
      (wr.filter ok) (wr.filter (fun c => ! ok c)) ∧
    (wr.filter ok).length + (wr.filter (fun c => ! ok c)).length = wr.length := by
  refine ⟨?_, filter_length_partition ok wr⟩
  unfold mainModel at h ⊢
  simp only [setTileOk] at h ⊢
  split_ifs at h ⊢ <;> try exact RunResult.noConfusion h
  rcases hle : env.levelArg with _ | lv <;> simp only [hle] at h ⊢
  · exact RunResult.noConfusion h
  · split_ifs at h ⊢ <;> try exact RunResult.noConfusion h
    rw [runEffects_eq] at h ⊢
    injection h with hw hk hwr hlg
    subst hw
    subst hk
    rw [List.filter_true] at hwr
    subst hwr
    rfl

/-- Witness for C8: the theorem applied at the default configuration,
maxLevel 1, and an oracle that fails exactly the tile (1, 0, 0). -/
theorem per_tile_failures_are_local_witness :
    mainModel cfgDefault (setTileOk envOkL1 (fun c => ! (c == (1, 0, 0)))) =
      RunResult.completed false Kernel.bicubic
        [(1, 1, 0), (1, 0, 1), (1, 1, 1), (0, 0, 0)] [(1, 0, 0)] := by
  have h := (per_tile_failures_are_local cfgDefault envOkL1 false Kernel.bicubic
    (runCoords 1) [] (fun c => ! (c == (1, 0, 0))) (by decide)).1
  rw [h]
  decide
